/-
Verification of `camaro_to_braille.py`: a single-shot pipeline that captures
a camera frame, preprocesses it, runs OCR, and optionally transmits the
recognized text over a serial link in newline-terminated chunks.

The Python source is shallowly embedded: pure string manipulation is
translated directly; external effects (glob scan, serial open/write,
subprocess, image library calls) are modelled by explicit environments and
effect traces.
-/
import Mathlib

namespace CamaroToBraille

/-! ## Configuration constants (CONFIG block, lines 16-22 of the source) -/

/-- `RESOLUTION = (640, 480)` -/
def RESOLUTION : Nat × Nat := (640, 480)

/-- `SERIAL_BAUD = 115200` -/
def SERIAL_BAUD : Nat := 115200

/-- `MAX_CHARS_PER_CHUNK = 120` -/
def MAX_CHARS_PER_CHUNK : Nat := 120

/-! ## Python string primitives

`str.strip()` / `str.split()` with no arguments treat a character as
whitespace when it is one of the six ASCII whitespace characters (space,
tab, newline, carriage return, vertical tab, form feed); the program only
ever feeds it ASCII OCR output. -/

/-- Python whitespace test (ASCII fragment of `str.isspace`). -/
def pyIsSpace (c : Char) : Bool :=
  c = ' ' || c = '\t' || c = '\n' || c = '\x0d' || c = '\x0b' || c = '\x0c'

/-- `str.strip()` on the character list: drop whitespace from both ends. -/
def stripChars (cs : List Char) : List Char :=
  ((cs.dropWhile pyIsSpace).reverse.dropWhile pyIsSpace).reverse

/-- `text.strip()` (line 46). -/
def stripString (s : String) : String :=
  String.mk (stripChars s.data)

/-- `str.split()` with no separator: split on runs of whitespace, discarding
empty pieces, so leading and trailing whitespace produce no words. -/
def splitWs : List Char → List (List Char)
  | [] => []
  | c :: cs =>
    if pyIsSpace c then splitWs cs
    else (c :: cs.takeWhile (fun d => !pyIsSpace d)) ::
      splitWs (cs.dropWhile (fun d => !pyIsSpace d))
termination_by cs => cs.length
decreasing_by
  · simp
  · simp only [List.length_cons]
    have h : ∀ (p : Char → Bool) (l : List Char), (l.dropWhile p).length ≤ l.length := by
      intro p l
      induction l with
      | nil => simp
      | cons a l ih =>
        rw [List.dropWhile_cons]
        split
        · exact Nat.le_trans ih (Nat.le_succ _)
        · simp
    have := h (fun d => !pyIsSpace d) cs
    omega

/-- `" ".join(words)`: interleave a single space between the words. -/
def joinWords : List (List Char) → List Char
  | [] => []
  | [w] => w
  | w :: ws => w ++ ' ' :: joinWords ws

/-- `" ".join(text.split())` (line 59): whitespace-run normalization. -/
def joinSplit (s : String) : String :=
  String.mk (joinWords (splitWs s.data))

/-! ## Chunking (lines 60-65)

```
while payload:
    chunk = payload[:MAX_CHARS_PER_CHUNK]
    payload = payload[MAX_CHARS_PER_CHUNK:]
```
The loop peels off the first `n` characters until the payload is exhausted.
The Python loop never terminates for `n = 0`; the definition guards that
case (it is unreachable: the configured chunk size is 120). -/

/-- The chunking loop on character lists. -/
def chunkList (n : Nat) (cs : List Char) : List (List Char) :=
  if h : cs = [] ∨ n = 0 then []
  else cs.take n :: chunkList n (cs.drop n)
termination_by cs.length
decreasing_by
  rcases cs with _ | ⟨c, cs⟩
  · exact absurd (Or.inl rfl) h
  · simp only [List.length_drop, List.length_cons]
    omega

/-- The chunking loop on strings, as `send_to_esp32` performs it. -/
def chunkString (n : Nat) (s : String) : List String :=
  (chunkList n s.data).map String.mk

/-! ## Serial transmission (`find_serial_port`, `send_to_esp32`, lines 41-68)

The filesystem and the serial device are modelled by an explicit
environment; the body of `send_to_esp32` is translated into the sequence of
observable effects it performs (console prints, the glob scan, the attempt
to open the port, each `ser.write`). -/

/-- State of the outside world as `send_to_esp32` sees it. -/
structure SerialEnv where
  /-- matches of `glob.glob("/dev/ttyACM*")` -/
  acm : List String
  /-- matches of `glob.glob("/dev/ttyUSB*")` -/
  usb : List String
  /-- whether `serial.Serial(...)` and the writes inside the `with` block
  succeed -/
  openOk : Bool
  /-- text of the exception when they do not -/
  errMsg : String

/-- `find_serial_port` (lines 41-43):
`cands = sorted(glob("/dev/ttyACM*") + glob("/dev/ttyUSB*"))`;
`return cands[0] if cands else None`. -/
def find_serial_port (env : SerialEnv) : Option String :=
  match (env.acm ++ env.usb).mergeSort (fun a b => decide (a ≤ b)) with
  | [] => none
  | p :: _ => some p

/-- One observable step of `send_to_esp32`. -/
inductive Effect where
  /-- a `print(...)` call -/
  | printed (msg : String)
  /-- the glob scan performed by `find_serial_port` -/
  | scanned
  /-- `serial.Serial(port, baud, ...)` -/
  | openAttempt (port : String) (baud : Nat)
  /-- `ser.write(data)` -/
  | wrote (data : String)
deriving DecidableEq, Repr

/-- `send_to_esp32(text, port)` (lines 45-68) as its trace of effects. -/
def send_to_esp32 (text : String) (port : Option String) (env : SerialEnv) :
    List Effect :=
  let t := stripString text
  if t = "" then [Effect.printed "No text detected to send."]
  else
    let scanEff : List Effect :=
      match port with | some _ => [] | none => [Effect.scanned]
    let resolved : Option String :=
      match port with | some p => some p | none => find_serial_port env
    match resolved with
    | none =>
      scanEff ++
        [Effect.printed "No ESP32 serial port found (e.g., /dev/ttyACM0). Skipping send."]
    | some p =>
      -- `if not port:` is also taken when the resolved port is the empty string
      if p = "" then
        scanEff ++
          [Effect.printed "No ESP32 serial port found (e.g., /dev/ttyACM0). Skipping send."]
      else
        scanEff ++
          [Effect.printed
            ("Connecting to ESP32 on " ++ p ++ " @ " ++ toString SERIAL_BAUD ++ "…"),
           Effect.openAttempt p SERIAL_BAUD] ++
          (if env.openOk then
            ((chunkString MAX_CHARS_PER_CHUNK (joinSplit t)).map
              (fun c => Effect.wrote (c ++ "\n"))) ++
              [Effect.printed "Sent to ESP32."]
          else [Effect.printed ("Serial error: " ++ env.errMsg)])

/-! ## Images

A captured frame is a height × width × 3 8-bit raster (row list of BGR
pixel triples); a processed frame is single-channel. -/

/-- A BGR pixel `(b, g, r)`. -/
abbrev BGRPixel := Nat × Nat × Nat

/-- A captured colour frame. -/
abbrev BGRImage := List (List BGRPixel)

/-- A single-channel frame. -/
abbrev GrayImage := List (List Nat)

/-! ## Capture (`capture_with_rpicam`, `capture_frame`, lines 111-137)

The Picamera2 SDK, the `rpicam-still` subprocess and `cv2.imread` are
external; their outcomes are fields of an environment. A Python exception
escaping a function is an `Except.error` carrying the exception message. -/

/-- Outcome of `subprocess.run(cmd, check=True, ...)` for `rpicam-still`. -/
inductive RpicamRun where
  /-- `FileNotFoundError`: the tool is not installed -/
  | fileNotFound
  /-- `subprocess.CalledProcessError`: non-zero exit status, with the
  decoded standard-error text -/
  | calledProcessError (stderrText : String)
  /-- exit status zero -/
  | success
deriving DecidableEq, Repr

/-- External outcomes seen by `capture_frame`. -/
structure CaptureEnv where
  /-- the module-level `PICAMERA2_OK` capability flag (lines 28-32) -/
  picamera2_ok : Bool
  /-- what `capture_with_picamera2()` returns, or the exception it raises -/
  picamResult : Except String BGRImage
  /-- how `subprocess.run` on the `rpicam-still` command ends -/
  rpicamRun : RpicamRun
  /-- what `cv2.imread(tmp_path)` yields afterwards (`none` = unreadable) -/
  imreadResult : Option BGRImage

/-- The `rpicam-still` command line (line 116), including the configured
resolution. -/
def rpicam_cmd : List String :=
  ["rpicam-still", "--nopreview", "-t", "1000", "-o", "capture_rpicam.jpg",
   "--width", toString RESOLUTION.1, "--height", toString RESOLUTION.2]

/-- `capture_with_rpicam` (lines 111-127): run the CLI tool, then load the
output file; each failure raises a distinct `RuntimeError`. -/
def capture_with_rpicam (env : CaptureEnv) : Except String BGRImage :=
  match env.rpicamRun with
  | RpicamRun.fileNotFound =>
    Except.error "rpicam-still not found. Install rpicam-apps, or use Picamera2."
  | RpicamRun.calledProcessError stderrText =>
    Except.error ("rpicam-still failed: " ++ stderrText)
  | RpicamRun.success =>
    match env.imreadResult with
    | none => Except.error "Failed to load image captured by rpicam-still."
    | some img => Except.ok img

/-- `capture_frame` (lines 129-137): try Picamera2 first; on any exception
(or when the SDK is absent) fall back to `capture_with_rpicam`. A failure
of the fallback is not caught and propagates. -/
def capture_frame (env : CaptureEnv) : Except String BGRImage :=
  if env.picamera2_ok then
    match env.picamResult with
    | Except.ok f => Except.ok f
    | Except.error _ => capture_with_rpicam env
  else capture_with_rpicam env

/-! ## Preprocessing (`preprocess_for_ocr`, lines 139-145)

`cv2.cvtColor(..., COLOR_BGR2GRAY)` is OpenCV's fixed-point formula
`Y = (4899*R + 9617*G + 1868*B + 2^13) >> 14`, an exact integer
computation. `cv2.bilateralFilter` and the Otsu threshold value are
computed by OpenCV in floating point; they enter the model as parameters
(OpenCV's documented contract: the filter returns an image of the same
size and type). `cv2.threshold(gray, 0, 255, THRESH_BINARY + THRESH_OTSU)`
maps every pixel to 255 when it exceeds the chosen threshold and to 0
otherwise. -/

/-- `cv2.cvtColor(img, COLOR_BGR2GRAY)` on an 8-bit image. -/
def bgr2gray (img : BGRImage) : GrayImage :=
  img.map (fun row => row.map (fun p =>
    (4899 * p.2.2 + 9617 * p.2.1 + 1868 * p.1 + 8192) / 16384))

/-- `cv2.threshold(gray, 0, 255, THRESH_BINARY + THRESH_OTSU)`: the
thresholding map applied with the Otsu-selected threshold `t`. -/
def thresholdBinary (t : Nat) (gray : GrayImage) : GrayImage :=
  gray.map (fun row => row.map (fun p => if t < p then 255 else 0))

/-- `preprocess_for_ocr` (lines 139-145), parameterised by the OpenCV
bilateral filter and the Otsu threshold selector. -/
def preprocess_for_ocr (bilateral : GrayImage → GrayImage)
    (otsu : GrayImage → Nat) (img : BGRImage) : GrayImage :=
  let gray := bgr2gray img
  let gray := bilateral gray
  thresholdBinary (otsu gray) gray

/-- The filter's documented contract: same height, same row widths. -/
def PreservesShape (f : GrayImage → GrayImage) : Prop :=
  ∀ g : GrayImage, (f g).length = g.length ∧
    (f g).map List.length = g.map List.length

/-! ## OCR (`ocr_image`, lines 147-154)

The Tesseract engine is a parameter; `ocr_image` catches any exception it
raises and substitutes the empty string. -/

/-- `ocr_image` (lines 147-154). -/
def ocr_image (engine : GrayImage → Except String String) (img : GrayImage) :
    String :=
  match engine img with
  | Except.ok text => text
  | Except.error _ => ""

/-! ## The pipeline (`main`, lines 156-179) -/

/-- `main` (lines 156-179): capture, preprocess, OCR, optionally send. An
exception from `capture_frame` is uncaught, so it propagates as
`Except.error` (the process dies with that fatal error); every later step
is total. The result carries the OCR text and the transmission trace (or
`none` when the operator declines). -/
def mainModel (cenv : CaptureEnv) (bilateral : GrayImage → GrayImage)
    (otsu : GrayImage → Nat) (engine : GrayImage → Except String String)
    (sendChoice : Bool) (senv : SerialEnv) :
    Except String (String × Option (List Effect)) :=
  match capture_frame cenv with
  | Except.error e => Except.error e
  | Except.ok frame =>
    let proc := preprocess_for_ocr bilateral otsu frame
    let text := ocr_image engine proc
    if sendChoice then Except.ok (text, some (send_to_esp32 text none senv))
    else Except.ok (text, none)

/-! ## Facts about the whitespace primitives -/

theorem dropWhile_length_le (p : Char → Bool) (l : List Char) :
    (l.dropWhile p).length ≤ l.length := by
  induction l with
  | nil => simp
  | cons a l ih =>
    rw [List.dropWhile_cons]
    split
    · exact Nat.le_trans ih (Nat.le_succ _)
    · simp

theorem splitWs_nil : splitWs [] = [] := by
  simp [splitWs]

theorem splitWs_cons_space (c : Char) (cs : List Char) (h : pyIsSpace c = true) :
    splitWs (c :: cs) = splitWs cs := by
  rw [splitWs]
  simp [h]

theorem splitWs_cons_word (c : Char) (cs : List Char) (h : pyIsSpace c = false) :
    splitWs (c :: cs) =
      (c :: cs.takeWhile (fun d => !pyIsSpace d)) ::
        splitWs (cs.dropWhile (fun d => !pyIsSpace d)) := by
  rw [splitWs]
  simp [h]

/-- Every word produced by `splitWs` is non-empty and whitespace-free. -/
theorem splitWs_words (cs : List Char) :
    ∀ w ∈ splitWs cs, w ≠ [] ∧ ∀ c ∈ w, pyIsSpace c = false := by
  induction cs using splitWs.induct with
  | case1 => simp [splitWs_nil]
  | case2 c cs hc ih =>
    rw [splitWs_cons_space c cs hc]
    exact ih
  | case3 c cs hc ih =>
    have hc' : pyIsSpace c = false := by simpa using hc
    rw [splitWs_cons_word c cs hc']
    intro w hw
    rcases List.mem_cons.mp hw with h | h
    · subst h
      refine ⟨by simp, ?_⟩
      intro d hd
      rcases List.mem_cons.mp hd with rfl | hd
      · exact hc'
      · simpa using List.mem_takeWhile_imp hd
    · exact ih w h

theorem takeWhile_append_of_all (w rest : List Char)
    (hw : ∀ c ∈ w, pyIsSpace c = false) :
    (w ++ rest).takeWhile (fun d => !pyIsSpace d) =
      w ++ rest.takeWhile (fun d => !pyIsSpace d) := by
  induction w with
  | nil => simp
  | cons a w ih =>
    have ha : pyIsSpace a = false := hw a (List.mem_cons_self a w)
    simp only [List.cons_append, List.takeWhile_cons, ha]
    simp [ih (fun c hc => hw c (List.mem_cons_of_mem a hc))]

theorem dropWhile_append_of_all (w rest : List Char)
    (hw : ∀ c ∈ w, pyIsSpace c = false) :
    (w ++ rest).dropWhile (fun d => !pyIsSpace d) =
      rest.dropWhile (fun d => !pyIsSpace d) := by
  induction w with
  | nil => simp
  | cons a w ih =>
    have ha : pyIsSpace a = false := hw a (List.mem_cons_self a w)
    simp only [List.cons_append, List.dropWhile_cons, ha]
    simp [ih (fun c hc => hw c (List.mem_cons_of_mem a hc))]

/-- `splitWs` recovers a whitespace-free word placed before a space. -/
theorem splitWs_word_space (w rest : List Char) (hne : w ≠ [])
    (hw : ∀ c ∈ w, pyIsSpace c = false) :
    splitWs (w ++ ' ' :: rest) = w :: splitWs rest := by
  rcases w with _ | ⟨c, w⟩
  · exact absurd rfl hne
  · have hc : pyIsSpace c = false := hw c (List.mem_cons_self c w)
    have hw' : ∀ d ∈ w, pyIsSpace d = false :=
      fun d hd => hw d (List.mem_cons_of_mem c hd)
    rw [List.cons_append, splitWs_cons_word c (w ++ ' ' :: rest) hc]
    rw [takeWhile_append_of_all w (' ' :: rest) hw',
        dropWhile_append_of_all w (' ' :: rest) hw']
    have hsp : pyIsSpace ' ' = true := by decide
    rw [List.takeWhile_cons, List.dropWhile_cons]
    simp [hsp, splitWs_cons_space ' ' rest hsp]

/-- `splitWs` of a single whitespace-free word is that word. -/
theorem splitWs_single (w : List Char) (hne : w ≠ [])
    (hw : ∀ c ∈ w, pyIsSpace c = false) :
    splitWs w = [w] := by
  rcases w with _ | ⟨c, w⟩
  · exact absurd rfl hne
  · have hc : pyIsSpace c = false := hw c (List.mem_cons_self c w)
    have hw' : ∀ d ∈ w, pyIsSpace d = false :=
      fun d hd => hw d (List.mem_cons_of_mem c hd)
    rw [splitWs_cons_word c w hc]
    have htake : w.takeWhile (fun d => !pyIsSpace d) = w := by
      have := takeWhile_append_of_all w [] hw'
      simpa using this
    have hdrop : w.dropWhile (fun d => !pyIsSpace d) = [] := by
      have := dropWhile_append_of_all w [] hw'
      simpa using this
    rw [htake, hdrop, splitWs_nil]

/-- `splitWs` is a left inverse of `joinWords` on lists of non-empty
whitespace-free words. -/
theorem splitWs_joinWords (ws : List (List Char))
    (h : ∀ w ∈ ws, w ≠ [] ∧ ∀ c ∈ w, pyIsSpace c = false) :
    splitWs (joinWords ws) = ws := by
  induction ws with
  | nil => simp [joinWords, splitWs_nil]
  | cons w ws ih =>
    rcases ws with _ | ⟨v, ws⟩
    · have hw := h w (List.mem_cons_self w [])
      simpa [joinWords] using splitWs_single w hw.1 hw.2
    · have hw := h w (List.mem_cons_self w (v :: ws))
      have hrest : ∀ u ∈ v :: ws, u ≠ [] ∧ ∀ c ∈ u, pyIsSpace c = false :=
        fun u hu => h u (List.mem_cons_of_mem w hu)
      show splitWs (w ++ ' ' :: joinWords (v :: ws)) = w :: v :: ws
      rw [splitWs_word_space w (joinWords (v :: ws)) hw.1 hw.2, ih hrest]

theorem joinWords_ne_nil (w : List Char) (ws : List (List Char)) (hne : w ≠ []) :
    joinWords (w :: ws) ≠ [] := by
  cases ws with
  | nil => simpa [joinWords] using hne
  | cons v ws => simp [joinWords]

/-- The first character of a join of non-empty whitespace-free words is not
whitespace. -/
theorem joinWords_head (ws : List (List Char))
    (h : ∀ w ∈ ws, w ≠ [] ∧ ∀ c ∈ w, pyIsSpace c = false) :
    ∀ c, (joinWords ws).head? = some c → pyIsSpace c = false := by
  cases ws with
  | nil => simp [joinWords]
  | cons w ws =>
    have hw := h w (List.mem_cons_self w ws)
    intro c hc
    have hh : (joinWords (w :: ws)).head? = w.head? := by
      cases ws with
      | nil => simp [joinWords]
      | cons v ws =>
        show (w ++ ' ' :: joinWords (v :: ws)).head? = w.head?
        exact List.head?_append_of_ne_nil w hw.1
    rw [hh] at hc
    exact hw.2 c (List.mem_of_mem_head? hc)

/-- The last character of a join of non-empty whitespace-free words is not
whitespace. -/
theorem joinWords_getLast (ws : List (List Char))
    (h : ∀ w ∈ ws, w ≠ [] ∧ ∀ c ∈ w, pyIsSpace c = false) :
    ∀ c, (joinWords ws).getLast? = some c → pyIsSpace c = false := by
  induction ws with
  | nil => simp [joinWords]
  | cons w ws ih =>
    cases ws with
    | nil =>
      have hw := h w (List.mem_cons_self w [])
      intro c hc
      exact hw.2 c (List.mem_of_mem_getLast? hc)
    | cons v ws =>
      have hv := h v (List.mem_cons_of_mem w (List.mem_cons_self v ws))
      have hrest : ∀ u ∈ v :: ws, u ≠ [] ∧ ∀ c ∈ u, pyIsSpace c = false :=
        fun u hu => h u (List.mem_cons_of_mem w hu)
      intro c hc
      have hJ : joinWords (v :: ws) ≠ [] := joinWords_ne_nil v ws hv.1
      have hl : (joinWords (w :: v :: ws)).getLast? =
          (joinWords (v :: ws)).getLast? := by
        show (w ++ ' ' :: joinWords (v :: ws)).getLast? = _
        rw [List.getLast?_append]
        rcases hmatch : joinWords (v :: ws) with _ | ⟨x, xs⟩
        · exact absurd hmatch hJ
        · rw [List.getLast?_cons_cons]
          rcases hlast : (x :: xs).getLast? with _ | y
          · rw [List.getLast?_eq_none_iff] at hlast
            exact absurd hlast (by simp)
          · simp
      rw [hl] at hc
      exact ih hrest c hc

theorem dropWhile_eq_self_of_head (p : Char → Bool) (cs : List Char)
    (h : ∀ c, cs.head? = some c → p c = false) : cs.dropWhile p = cs := by
  cases cs with
  | nil => simp
  | cons a cs =>
    rw [List.dropWhile_cons]
    simp [h a rfl]

/-- `strip` is the identity on a string whose ends are not whitespace. -/
theorem stripChars_eq_self (cs : List Char)
    (hh : ∀ c, cs.head? = some c → pyIsSpace c = false)
    (hl : ∀ c, cs.getLast? = some c → pyIsSpace c = false) :
    stripChars cs = cs := by
  have hrev : ∀ c, cs.reverse.head? = some c → pyIsSpace c = false := by
    intro c hc
    rw [List.head?_reverse] at hc
    exact hl c hc
  unfold stripChars
  rw [dropWhile_eq_self_of_head pyIsSpace cs hh,
      dropWhile_eq_self_of_head pyIsSpace cs.reverse hrev,
      List.reverse_reverse]

/-! ## Facts about chunking -/

theorem chunkList_nil (n : Nat) : chunkList n [] = [] := by
  rw [chunkList]
  simp

theorem chunkList_cons (n : Nat) (cs : List Char) (hcs : cs ≠ []) (hn : 0 < n) :
    chunkList n cs = cs.take n :: chunkList n (cs.drop n) := by
  rw [chunkList]
  simp [hcs, Nat.pos_iff_ne_zero.mp hn]

/-- The chunking loop loses no characters: the chunks concatenate back to
the input. -/
theorem chunkList_flatten (n : Nat) (hn : 0 < n) (cs : List Char) :
    (chunkList n cs).flatten = cs := by
  by_cases hcs : cs = []
  · subst hcs
    simp [chunkList_nil]
  · rw [chunkList_cons n cs hcs hn, List.flatten_cons,
        chunkList_flatten n hn (cs.drop n), List.take_append_drop]
termination_by cs.length
decreasing_by
  have hpos : 0 < cs.length := List.length_pos.mpr hcs
  simp only [List.length_drop]
  omega

/-- Every chunk is non-empty and at most `n` characters long. -/
theorem chunkList_chunks (n : Nat) (hn : 0 < n) (cs : List Char) :
    ∀ w ∈ chunkList n cs, w ≠ [] ∧ w.length ≤ n := by
  by_cases hcs : cs = []
  · subst hcs
    simp [chunkList_nil]
  · rw [chunkList_cons n cs hcs hn]
    intro w hw
    rcases List.mem_cons.mp hw with rfl | hw
    · refine ⟨?_, ?_⟩
      · simp [List.take_eq_nil_iff, hcs, Nat.pos_iff_ne_zero.mp hn]
      · rw [List.length_take]
        exact min_le_left n cs.length
    · exact chunkList_chunks n hn (cs.drop n) w hw
termination_by cs.length
decreasing_by
  have hpos : 0 < cs.length := List.length_pos.mpr hcs
  simp only [List.length_drop]
  omega

/-- Every chunk but possibly the last is exactly `n` characters long. -/
theorem chunkList_dropLast (n : Nat) (hn : 0 < n) (cs : List Char) :
    ∀ w ∈ (chunkList n cs).dropLast, w.length = n := by
  by_cases hcs : cs = []
  · subst hcs
    simp [chunkList_nil]
  · rw [chunkList_cons n cs hcs hn]
    by_cases hdrop : cs.drop n = []
    · rw [hdrop, chunkList_nil]
      simp
    · have hrest : chunkList n (cs.drop n) ≠ [] := by
        rw [chunkList_cons n _ hdrop hn]
        simp
      rw [List.dropLast_cons_of_ne_nil hrest]
      intro w hw
      rcases List.mem_cons.mp hw with rfl | hw
      · have hlt : n < cs.length := by
          have hpos : 0 < (cs.drop n).length := List.length_pos.mpr hdrop
          simp only [List.length_drop] at hpos
          omega
        rw [List.length_take]
        exact min_eq_left hlt.le
      · exact chunkList_dropLast n hn (cs.drop n) w hw
termination_by cs.length
decreasing_by
  have hpos : 0 < cs.length := List.length_pos.mpr hcs
  simp only [List.length_drop]
  omega

/-! ## Bridging character lists and strings -/

theorem foldl_append_mk (ws : List (List Char)) (acc : List Char) :
    List.foldl (fun r s => r ++ s) (String.mk acc) (ws.map String.mk) =
      String.mk (acc ++ ws.flatten) := by
  induction ws generalizing acc with
  | nil => simp
  | cons w ws ih =>
    simp only [List.map_cons, List.foldl_cons, List.flatten_cons]
    have hmk : String.mk acc ++ String.mk w = String.mk (acc ++ w) := rfl
    rw [hmk, ih (acc ++ w), List.append_assoc]

theorem join_map_mk (ws : List (List Char)) :
    String.join (ws.map String.mk) = String.mk ws.flatten := by
  have hdef : String.join (ws.map String.mk) =
      List.foldl (fun r s => r ++ s) (String.mk []) (ws.map String.mk) := rfl
  rw [hdef, foldl_append_mk ws []]
  rfl

/-! ## The claims -/

/-- C2: whenever the OCR engine raises on an input image, `ocr_image`
returns the empty string instead of propagating the error, and the
pipeline never aborts because of an OCR failure (once capture has
succeeded, `main` always completes normally). -/
theorem ocr_error_returns_empty (engine : GrayImage → Except String String)
    (img : GrayImage) (e : String) (h : engine img = Except.error e) :
    ocr_image engine img = "" ∧
    (∀ (cenv : CaptureEnv) (bilateral : GrayImage → GrayImage)
        (otsu : GrayImage → Nat) (sendChoice : Bool) (senv : SerialEnv)
        (frame : BGRImage), capture_frame cenv = Except.ok frame →
      ∃ r, mainModel cenv bilateral otsu engine sendChoice senv =
        Except.ok r) := by
  constructor
  · unfold ocr_image
    rw [h]
  · intro cenv bilateral otsu sendChoice senv frame hcap
    unfold mainModel
    rw [hcap]
    cases sendChoice <;> exact ⟨_, rfl⟩

theorem ocr_error_returns_empty_witness :
    (fun _ : GrayImage => (Except.error "boom" : Except String String)) [] =
      Except.error "boom" ∧
    (ocr_image (fun _ => Except.error "boom") [] = "" ∧
     (∀ (cenv : CaptureEnv) (bilateral : GrayImage → GrayImage)
         (otsu : GrayImage → Nat) (sendChoice : Bool) (senv : SerialEnv)
         (frame : BGRImage), capture_frame cenv = Except.ok frame →
       ∃ r, mainModel cenv bilateral otsu (fun _ => Except.error "boom")
         sendChoice senv = Except.ok r)) :=
  ⟨rfl, ocr_error_returns_empty (fun _ => Except.error "boom") [] "boom" rfl⟩

/-- C3: when the text is empty after stripping, `send_to_esp32` (with no
explicit port) only reports that there is nothing to send: it performs no
glob scan and never attempts to open a serial device. -/
theorem send_empty_text_no_scan (text : String) (env : SerialEnv)
    (h : stripString text = "") :
    send_to_esp32 text none env =
      [Effect.printed "No text detected to send."] ∧
    Effect.scanned ∉ send_to_esp32 text none env ∧
    (∀ p b, Effect.openAttempt p b ∉ send_to_esp32 text none env) := by
  have htrace : send_to_esp32 text none env =
      [Effect.printed "No text detected to send."] := by
    simp [send_to_esp32, h]
  refine ⟨htrace, ?_, ?_⟩
  · rw [htrace]
    simp
  · intro p b
    rw [htrace]
    simp

theorem send_empty_text_no_scan_witness :
    stripString " \t\n " = "" ∧
    (send_to_esp32 " \t\n " none ⟨[], [], true, ""⟩ =
       [Effect.printed "No text detected to send."] ∧
     Effect.scanned ∉ send_to_esp32 " \t\n " none ⟨[], [], true, ""⟩ ∧
     (∀ p b,
       Effect.openAttempt p b ∉ send_to_esp32 " \t\n " none ⟨[], [], true, ""⟩)) :=
  ⟨by decide, send_empty_text_no_scan " \t\n " ⟨[], [], true, ""⟩ (by decide)⟩

unseal chunkList in
/-- C4: the chunking loop splits the payload into consecutive substrings of
the maximum chunk size, and each transmitted write is the chunk followed by
a single newline: with maximum 5 and payload `"abcdefgh"` the chunks are
exactly `["abcde", "fgh"]` and the writes `["abcde\n", "fgh\n"]`. -/
theorem chunking_example_five :
    chunkString 5 "abcdefgh" = ["abcde", "fgh"] ∧
    (chunkString 5 "abcdefgh").map (fun c => c ++ "\n") =
      ["abcde\n", "fgh\n"] := by
  decide

unseal splitWs in
/-- C6: whitespace normalization (`" ".join(text.split())`) collapses every
whitespace run to a single space: `"hello   world\n\nfoo"` becomes exactly
`"hello world foo"`. -/
theorem normalize_whitespace_example :
    joinSplit "hello   world\n\nfoo" = "hello world foo" := by
  decide

/-- C5: with no explicit port and an empty glob scan, `send_to_esp32`
reports that no port was found, attempts to open no device, writes
nothing, and returns (non-fatally, as a value rather than an raised
error). -/
theorem send_no_port_skips (text : String) (env : SerialEnv)
    (hne : stripString text ≠ "") (hacm : env.acm = []) (husb : env.usb = []) :
    send_to_esp32 text none env =
      [Effect.scanned,
       Effect.printed
         "No ESP32 serial port found (e.g., /dev/ttyACM0). Skipping send."] ∧
    (∀ p b, Effect.openAttempt p b ∉ send_to_esp32 text none env) ∧
    (∀ d, Effect.wrote d ∉ send_to_esp32 text none env) := by
  have hfind : find_serial_port env = none := by
    simp [find_serial_port, hacm, husb]
  have htrace : send_to_esp32 text none env =
      [Effect.scanned,
       Effect.printed
         "No ESP32 serial port found (e.g., /dev/ttyACM0). Skipping send."] := by
    simp [send_to_esp32, hne, hfind]
  refine ⟨htrace, ?_, ?_⟩
  · intro p b
    rw [htrace]
    simp
  · intro d
    rw [htrace]
    simp

theorem send_no_port_skips_witness :
    (stripString "hi" ≠ "" ∧
      SerialEnv.acm ⟨[], [], true, ""⟩ = [] ∧
      SerialEnv.usb ⟨[], [], true, ""⟩ = []) ∧
    (send_to_esp32 "hi" none ⟨[], [], true, ""⟩ =
       [Effect.scanned,
        Effect.printed
          "No ESP32 serial port found (e.g., /dev/ttyACM0). Skipping send."] ∧
     (∀ p b, Effect.openAttempt p b ∉ send_to_esp32 "hi" none ⟨[], [], true, ""⟩) ∧
     (∀ d, Effect.wrote d ∉ send_to_esp32 "hi" none ⟨[], [], true, ""⟩)) :=
  ⟨⟨by decide, rfl, rfl⟩,
    send_no_port_skips "hi" ⟨[], [], true, ""⟩ (by decide) rfl rfl⟩

/-- C7: for every input raster, preprocessing (greyscale, then any
shape-preserving denoising filter, then Otsu binary thresholding) is a
total function yielding a single-channel image with the same height and
the same row widths as the input, every pixel being 0 or 255. -/
theorem preprocess_shape_binary (bilateral : GrayImage → GrayImage)
    (otsu : GrayImage → Nat) (img : BGRImage) (hb : PreservesShape bilateral) :
    (preprocess_for_ocr bilateral otsu img).length = img.length ∧
    (preprocess_for_ocr bilateral otsu img).map List.length =
      img.map List.length ∧
    ∀ row ∈ preprocess_for_ocr bilateral otsu img, ∀ p ∈ row,
      p = 0 ∨ p = 255 := by
  have hb1 := (hb (bgr2gray img)).1
  have hb2 := (hb (bgr2gray img)).2
  have hgraylen : (bgr2gray img).length = img.length := by
    simp [bgr2gray]
  have hgraymap : (bgr2gray img).map List.length = img.map List.length := by
    simp [bgr2gray, List.map_map, Function.comp]
  refine ⟨?_, ?_, ?_⟩
  · show (thresholdBinary _ (bilateral (bgr2gray img))).length = img.length
    rw [thresholdBinary, List.length_map, hb1, hgraylen]
  · show (thresholdBinary _ (bilateral (bgr2gray img))).map List.length =
      img.map List.length
    rw [thresholdBinary, List.map_map]
    have : (List.length ∘ fun row : List Nat =>
        row.map fun p => if otsu (bilateral (bgr2gray img)) < p then 255 else 0) =
        List.length := by
      funext row
      simp
    rw [this, hb2, hgraymap]
  · intro row hrow p hp
    have hrow' : row ∈ (bilateral (bgr2gray img)).map
        (fun r => r.map fun q =>
          if otsu (bilateral (bgr2gray img)) < q then 255 else 0) := hrow
    rcases List.mem_map.mp hrow' with ⟨r, _, rfl⟩
    rcases List.mem_map.mp hp with ⟨q, _, rfl⟩
    by_cases hq : otsu (bilateral (bgr2gray img)) < q
    · right
      simp [hq]
    · left
      simp [hq]

theorem preprocess_shape_binary_witness :
    PreservesShape (fun g => g) ∧
    ((preprocess_for_ocr (fun g => g) (fun _ => 0)
        [[(0, 0, 0), (1, 2, 3)]]).length = [[(0, 0, 0), (1, 2, 3)]].length ∧
     (preprocess_for_ocr (fun g => g) (fun _ => 0)
        [[(0, 0, 0), (1, 2, 3)]]).map List.length =
       [[((0 : Nat), (0 : Nat), (0 : Nat)), (1, 2, 3)]].map List.length ∧
     ∀ row ∈ preprocess_for_ocr (fun g => g) (fun _ => 0)
        [[(0, 0, 0), (1, 2, 3)]], ∀ p ∈ row, p = 0 ∨ p = 255) :=
  ⟨fun _ => ⟨rfl, rfl⟩,
    preprocess_shape_binary (fun g => g) (fun _ => 0)
      [[(0, 0, 0), (1, 2, 3)]] (fun _ => ⟨rfl, rfl⟩)⟩

/-- C8: with no explicit port, device resolution sorts the union of the two
glob match lists and picks the first element, which is the
lexicographically smallest match, whenever the match set is non-empty. -/
theorem find_serial_port_min (env : SerialEnv)
    (h : env.acm ++ env.usb ≠ []) :
    ∃ p, find_serial_port env = some p ∧ p ∈ env.acm ++ env.usb ∧
      ∀ q ∈ env.acm ++ env.usb, p ≤ q := by
  have hperm : ((env.acm ++ env.usb).mergeSort
      (fun a b => decide (a ≤ b))).Perm (env.acm ++ env.usb) :=
    List.mergeSort_perm _ _
  have hsorted : List.Sorted (fun a b : String => a ≤ b)
      ((env.acm ++ env.usb).mergeSort (fun a b => decide (a ≤ b))) :=
    List.sorted_mergeSort' _
  rcases hl : (env.acm ++ env.usb).mergeSort (fun a b => decide (a ≤ b)) with
    _ | ⟨p, rest⟩
  · rw [hl] at hperm
    exact absurd hperm.symm.eq_nil h
  · rw [hl] at hperm hsorted
    refine ⟨p, ?_, ?_, ?_⟩
    · unfold find_serial_port
      rw [hl]
    · exact hperm.subset (List.mem_cons_self p rest)
    · intro q hq
      rcases List.mem_cons.mp (hperm.mem_iff.mpr hq) with rfl | hq'
      · exact le_refl q
      · exact (List.sorted_cons.mp hsorted).1 q hq'

unseal List.merge List.mergeSort in
theorem find_serial_port_min_witness :
    (SerialEnv.acm ⟨["/dev/ttyACM1"], ["/dev/ttyUSB0"], true, ""⟩ ++
        SerialEnv.usb ⟨["/dev/ttyACM1"], ["/dev/ttyUSB0"], true, ""⟩) ≠ [] ∧
    (∃ p, find_serial_port ⟨["/dev/ttyACM1"], ["/dev/ttyUSB0"], true, ""⟩ =
        some p ∧
      p ∈ SerialEnv.acm ⟨["/dev/ttyACM1"], ["/dev/ttyUSB0"], true, ""⟩ ++
          SerialEnv.usb ⟨["/dev/ttyACM1"], ["/dev/ttyUSB0"], true, ""⟩ ∧
      ∀ q ∈ SerialEnv.acm ⟨["/dev/ttyACM1"], ["/dev/ttyUSB0"], true, ""⟩ ++
          SerialEnv.usb ⟨["/dev/ttyACM1"], ["/dev/ttyUSB0"], true, ""⟩,
        p ≤ q) :=
  ⟨by decide,
    find_serial_port_min ⟨["/dev/ttyACM1"], ["/dev/ttyUSB0"], true, ""⟩
      (by decide)⟩

/-- C9: for every non-empty payload, chunking at `MAX_CHARS_PER_CHUNK`
(120) terminates with a lossless, bounded decomposition: the chunks
concatenate back to the payload, every chunk is non-empty and at most 120
characters long, and every chunk except possibly the last is exactly 120
characters long. -/
theorem chunking_lossless_bounded (s : String) (h : s ≠ "") :
    String.join (chunkString MAX_CHARS_PER_CHUNK s) = s ∧
    (∀ c ∈ chunkString MAX_CHARS_PER_CHUNK s,
      c ≠ "" ∧ c.length ≤ MAX_CHARS_PER_CHUNK) ∧
    (∀ c ∈ (chunkString MAX_CHARS_PER_CHUNK s).dropLast,
      c.length = MAX_CHARS_PER_CHUNK) := by
  have hn : 0 < MAX_CHARS_PER_CHUNK := by decide
  refine ⟨?_, ?_, ?_⟩
  · rw [chunkString, join_map_mk, chunkList_flatten _ hn]
  · intro c hc
    rcases List.mem_map.mp hc with ⟨w, hw, rfl⟩
    have hchunk := chunkList_chunks _ hn s.data w hw
    refine ⟨?_, hchunk.2⟩
    intro hempty
    apply hchunk.1
    have hdata : (String.mk w).data = ("" : String).data :=
      congrArg String.data hempty
    simpa using hdata
  · intro c hc
    rw [chunkString, ← List.map_dropLast] at hc
    rcases List.mem_map.mp hc with ⟨w, hw, rfl⟩
    exact chunkList_dropLast _ hn s.data w hw

unseal chunkList in
theorem chunking_lossless_bounded_witness :
    ("a" : String) ≠ "" ∧
    (String.join (chunkString MAX_CHARS_PER_CHUNK "a") = "a" ∧
     (∀ c ∈ chunkString MAX_CHARS_PER_CHUNK "a",
       c ≠ "" ∧ c.length ≤ MAX_CHARS_PER_CHUNK) ∧
     (∀ c ∈ (chunkString MAX_CHARS_PER_CHUNK "a").dropLast,
       c.length = MAX_CHARS_PER_CHUNK)) :=
  ⟨by decide, chunking_lossless_bounded "a" (by decide)⟩

/-- C10: the transmit-step normalization (`strip`, then
`" ".join(text.split())`) yields a payload that never begins or ends with
whitespace and is a fixed point of the normalization itself
(idempotence). -/
theorem normalize_trim_idempotent (text : String) :
    (∀ c, (joinSplit (stripString text)).data.head? = some c →
      pyIsSpace c = false) ∧
    (∀ c, (joinSplit (stripString text)).data.getLast? = some c →
      pyIsSpace c = false) ∧
    joinSplit (stripString (joinSplit (stripString text))) =
      joinSplit (stripString text) := by
  have hwords : ∀ w ∈ splitWs (stripString text).data,
      w ≠ [] ∧ ∀ c ∈ w, pyIsSpace c = false := splitWs_words _
  have hdata : (joinSplit (stripString text)).data =
      joinWords (splitWs (stripString text).data) := rfl
  refine ⟨?_, ?_, ?_⟩
  · intro c hc
    rw [hdata] at hc
    exact joinWords_head _ hwords c hc
  · intro c hc
    rw [hdata] at hc
    exact joinWords_getLast _ hwords c hc
  · have hstrip : stripString (joinSplit (stripString text)) =
        joinSplit (stripString text) := by
      show String.mk (stripChars (joinSplit (stripString text)).data) = _
      rw [hdata, stripChars_eq_self (joinWords (splitWs (stripString text).data))
        (joinWords_head _ hwords) (joinWords_getLast _ hwords)]
      rfl
    rw [hstrip]
    show String.mk
        (joinWords (splitWs (joinSplit (stripString text)).data)) = _
    rw [hdata, splitWs_joinWords _ hwords]
    rfl

/-- C1: when Picamera2 is available but raises during capture,
`capture_frame` falls back to `capture_with_rpicam`, whose command line
carries the configured resolution; and when the fallback also fails (tool
not found, non-zero exit status, or unreadable output file) the result is
a fatal error naming that final failure — which propagates out of the
pipeline (`main` ends with that error) instead of yielding a blank
frame. -/
theorem capture_fallback_then_fatal (env : CaptureEnv) (e : String)
    (hok : env.picamera2_ok = true) (herr : env.picamResult = Except.error e) :
    capture_frame env = capture_with_rpicam env ∧
    ("--width" ∈ rpicam_cmd ∧ toString RESOLUTION.1 ∈ rpicam_cmd ∧
     "--height" ∈ rpicam_cmd ∧ toString RESOLUTION.2 ∈ rpicam_cmd) ∧
    (env.rpicamRun = RpicamRun.fileNotFound →
      capture_frame env = Except.error
        "rpicam-still not found. Install rpicam-apps, or use Picamera2.") ∧
    (∀ st, env.rpicamRun = RpicamRun.calledProcessError st →
      capture_frame env = Except.error ("rpicam-still failed: " ++ st)) ∧
    (env.rpicamRun = RpicamRun.success → env.imreadResult = none →
      capture_frame env = Except.error
        "Failed to load image captured by rpicam-still.") ∧
    (∀ msg, capture_frame env = Except.error msg →
      (∀ f, capture_frame env ≠ Except.ok f) ∧
      ∀ (bilateral : GrayImage → GrayImage) (otsu : GrayImage → Nat)
        (engine : GrayImage → Except String String) (sendChoice : Bool)
        (senv : SerialEnv),
        mainModel env bilateral otsu engine sendChoice senv =
          Except.error msg) := by
  have hfall : capture_frame env = capture_with_rpicam env := by
    simp [capture_frame, hok, herr]
  refine ⟨hfall, by decide, ?_, ?_, ?_, ?_⟩
  · intro hrun
    rw [hfall]
    simp [capture_with_rpicam, hrun]
  · intro st hrun
    rw [hfall]
    simp [capture_with_rpicam, hrun]
  · intro hrun hread
    rw [hfall]
    simp [capture_with_rpicam, hrun, hread]
  · intro msg hmsg
    constructor
    · intro f hf
      rw [hmsg] at hf
      exact Except.noConfusion hf
    · intro bilateral otsu engine sendChoice senv
      unfold mainModel
      rw [hmsg]

theorem capture_fallback_then_fatal_witness :
    (CaptureEnv.picamera2_ok
        ⟨true, Except.error "picam boom", RpicamRun.fileNotFound, none⟩ = true ∧
      CaptureEnv.picamResult
        ⟨true, Except.error "picam boom", RpicamRun.fileNotFound, none⟩ =
        Except.error "picam boom") ∧
    (capture_frame
        ⟨true, Except.error "picam boom", RpicamRun.fileNotFound, none⟩ =
      capture_with_rpicam
        ⟨true, Except.error "picam boom", RpicamRun.fileNotFound, none⟩ ∧
     ("--width" ∈ rpicam_cmd ∧ toString RESOLUTION.1 ∈ rpicam_cmd ∧
      "--height" ∈ rpicam_cmd ∧ toString RESOLUTION.2 ∈ rpicam_cmd) ∧
     (CaptureEnv.rpicamRun
         ⟨true, Except.error "picam boom", RpicamRun.fileNotFound, none⟩ =
         RpicamRun.fileNotFound →
       capture_frame
           ⟨true, Except.error "picam boom", RpicamRun.fileNotFound, none⟩ =
         Except.error
           "rpicam-still not found. Install rpicam-apps, or use Picamera2.") ∧
     (∀ st, CaptureEnv.rpicamRun
         ⟨true, Except.error "picam boom", RpicamRun.fileNotFound, none⟩ =
         RpicamRun.calledProcessError st →
       capture_frame
           ⟨true, Except.error "picam boom", RpicamRun.fileNotFound, none⟩ =
         Except.error ("rpicam-still failed: " ++ st)) ∧
     (CaptureEnv.rpicamRun
         ⟨true, Except.error "picam boom", RpicamRun.fileNotFound, none⟩ =
         RpicamRun.success →
       CaptureEnv.imreadResult
         ⟨true, Except.error "picam boom", RpicamRun.fileNotFound, none⟩ =
         none →
       capture_frame
           ⟨true, Except.error "picam boom", RpicamRun.fileNotFound, none⟩ =
         Except.error "Failed to load image captured by rpicam-still.") ∧
     (∀ msg, capture_frame
         ⟨true, Except.error "picam boom", RpicamRun.fileNotFound, none⟩ =
         Except.error msg →
       (∀ f, capture_frame
           ⟨true, Except.error "picam boom", RpicamRun.fileNotFound, none⟩ ≠
         Except.ok f) ∧
       ∀ (bilateral : GrayImage → GrayImage) (otsu : GrayImage → Nat)
         (engine : GrayImage → Except String String) (sendChoice : Bool)
         (senv : SerialEnv),
         mainModel
             ⟨true, Except.error "picam boom", RpicamRun.fileNotFound, none⟩
             bilateral otsu engine sendChoice senv =
           Except.error msg)) :=
  ⟨⟨rfl, rfl⟩,
    capture_fallback_then_fatal
      ⟨true, Except.error "picam boom", RpicamRun.fileNotFound, none⟩
      "picam boom" rfl rfl⟩

end CamaroToBraille
